import Mathlib

/-!
Verification development for the supergraph handler
(src/packages/legacy/handlers/supergraph/src/index.ts).

The TypeScript source is shallowly embedded: JavaScript Map objects and
plain header objects become association lists of string pairs, the
GraphQL AST fragment inspected by the handler becomes an inductive type,
and the asynchronous loader becomes an explicit state-passing function
counting collaborator invocations.
-/

/-- First-defined wins on options: the JavaScript pattern a !== undefined ? a : b
specialised to our option-valued lookups. -/
def orO {α : Type} : Option α → Option α → Option α
  | some x, _ => some x
  | none, b => b

theorem orO_assoc {α : Type} (a b c : Option α) :
    orO (orO a b) c = orO a (orO b c) := by
  cases a <;> cases b <;> rfl

theorem orO_none_right {α : Type} (a : Option α) : orO a none = a := by
  cases a <;> rfl

theorem orO_isSome {α : Type} (a b : Option α) :
    (orO a b).isSome = (a.isSome || b.isSome) := by
  cases a <;> cases b <;> rfl

/-- Model of JavaScript Map.prototype.get and of property lookup on a
string-keyed object: the first entry with the given key, if any. -/
def mapGet (k : String) : List (String × String) → Option String
  | [] => none
  | e :: es => if e.1 = k then some e.2 else mapGet k es

/-- Model of JavaScript Map.prototype.set: overwrite the value at an
existing key in place, otherwise append the new entry. -/
def mapSet (m : List (String × String)) (k v : String) : List (String × String) :=
  if (mapGet k m).isSome then
    m.map (fun e => if e.1 = k then (k, v) else e)
  else
    m ++ [(k, v)]

theorem mapGet_append (k : String) (a b : List (String × String)) :
    mapGet k (a ++ b) = orO (mapGet k a) (mapGet k b) := by
  induction a with
  | nil => rfl
  | cons e es ih =>
    by_cases h : e.1 = k
    · simp [mapGet, h, orO]
    · simp [mapGet, h, ih]

theorem mapGet_map_overwrite (k v : String) (m : List (String × String)) :
    mapGet k (m.map (fun e => if e.1 = k then (k, v) else e)) =
      if (mapGet k m).isSome then some v else none := by
  induction m with
  | nil => rfl
  | cons e es ih =>
    by_cases h : e.1 = k
    · simp [mapGet, h]
    · simp [mapGet, h, ih]

theorem mapGet_map_overwrite_other (k k' v : String) (hk : k' ≠ k)
    (m : List (String × String)) :
    mapGet k' (m.map (fun e => if e.1 = k then (k, v) else e)) = mapGet k' m := by
  induction m with
  | nil => rfl
  | cons e es ih =>
    by_cases h : e.1 = k
    · have h1 : e.1 ≠ k' := fun hc => hk (hc.symm.trans h)
      have h2 : k ≠ k' := fun hc => hk hc.symm
      simp only [List.map_cons, mapGet, if_pos h, if_neg h2, if_neg h1, ih]
    · by_cases h' : e.1 = k'
      · simp only [List.map_cons, mapGet, if_neg h, if_pos h']
      · simp only [List.map_cons, mapGet, if_neg h, if_neg h', ih]

theorem mapGet_mapSet_self (k v : String) (m : List (String × String)) :
    mapGet k (mapSet m k v) = some v := by
  unfold mapSet
  by_cases h : (mapGet k m).isSome
  · rw [if_pos h, mapGet_map_overwrite, if_pos h]
  · rw [if_neg h, mapGet_append]
    cases hm : mapGet k m with
    | some x => rw [hm] at h; simp at h
    | none => simp [orO, mapGet]

theorem mapGet_mapSet_other (k k' v : String) (hk : k' ≠ k)
    (m : List (String × String)) :
    mapGet k' (mapSet m k v) = mapGet k' m := by
  unfold mapSet
  by_cases h : (mapGet k m).isSome
  · rw [if_pos h, mapGet_map_overwrite_other k k' v hk]
  · rw [if_neg h, mapGet_append]
    have h2 : mapGet k' [(k, v)] = none := by
      have h3 : k ≠ k' := fun hc => hk hc.symm
      simp [mapGet, h3]
    rw [h2, orO_none_right]

/-! ## The GraphQL AST fragment inspected by the handler -/

/-- One argument of a directive: its name, the kind tag of its value node
and, when the value is a string literal, that string. -/
structure DirectiveArg where
  name : String
  valueKind : String
  value : String
deriving DecidableEq

/-- A directive attached to an enum value; the argument list is optional,
mirroring the optional chaining directive.arguments?.find in the source. -/
structure Directive where
  name : String
  arguments : Option (List DirectiveArg)
deriving DecidableEq

/-- One value of an enum type definition, with its optional directives. -/
structure EnumValue where
  name : String
  directives : Option (List Directive)
deriving DecidableEq

/-- A top-level definition of the supergraph document: the handler only
distinguishes enum type definitions (kind EnumTypeDefinition, with a name
and optional values) from everything else. -/
inductive Definition where
  | enumDef (name : String) (values : Option (List EnumValue))
  | otherDef
deriving DecidableEq

/-- The parsed supergraph document: its list of top-level definitions. -/
structure Document where
  definitions : List Definition
deriving DecidableEq

/-- The predicate of the source lookup
def.kind === 'EnumTypeDefinition' && def.name.value === 'join__Graph'. -/
def isJoinGraphEnum : Definition → Bool
  | .enumDef n _ => n = "join__Graph"
  | .otherDef => false

/-- The inner body of the directive loop (index.ts lines 100-107): a
directive named join__graph contributes the value of its first argument
named name, provided that value is a string literal. -/
def directiveRealName (d : Directive) : Option String :=
  if d.name = "join__graph" then
    match (d.arguments.getD []).find? (fun arg => arg.name = "name") with
    | some nameArg => if nameArg.valueKind = "StringValue" then some nameArg.value else none
    | none => none
  else none

/-- One step of the directives forEach: a valid join__graph directive
overwrites the map entry for the enum value, anything else is skipped. -/
def processDirective (ident : String) (m : List (String × String)) (d : Directive) :
    List (String × String) :=
  match directiveRealName d with
  | some realName => mapSet m ident realName
  | none => m

/-- One step of the values forEach (index.ts lines 99-108). -/
def processValue (m : List (String × String)) (v : EnumValue) : List (String × String) :=
  (v.directives.getD []).foldl (processDirective v.name) m

/-- The subgraphNameIdMap construction of getMeshSource (index.ts lines
94-109): find the first join__Graph enum definition and fold its values. -/
def subgraphNameIdMap (doc : Document) : List (String × String) :=
  match doc.definitions.find? isJoinGraphEnum with
  | some (.enumDef _ values) => (values.getD []).foldl processValue []
  | _ => []

/-- The real name recorded by a left-to-right overwriting scan of the
directive list: the LAST directive with a valid string name argument. -/
def lastDirectiveRealName : List Directive → Option String
  | [] => none
  | d :: ds => orO (lastDirectiveRealName ds) (directiveRealName d)

theorem mapGet_foldl_processDirective (n k : String) (ds : List Directive)
    (m : List (String × String)) :
    mapGet k (ds.foldl (processDirective n) m) =
      if n = k then orO (lastDirectiveRealName ds) (mapGet k m) else mapGet k m := by
  induction ds generalizing m with
  | nil =>
    by_cases h : n = k
    · simp [lastDirectiveRealName, orO, h]
    · simp [h]
  | cons d ds ih =>
    simp only [List.foldl_cons]
    rw [ih]
    by_cases h : n = k
    · have hpd : mapGet k (processDirective n m d) = orO (directiveRealName d) (mapGet k m) := by
        unfold processDirective
        cases hd : directiveRealName d with
        | some x =>
          subst h
          simp [orO, mapGet_mapSet_self]
        | none => simp [orO]
      simp only [if_pos h, hpd, lastDirectiveRealName]
      rw [orO_assoc]
    · have hpd : mapGet k (processDirective n m d) = mapGet k m := by
        unfold processDirective
        cases hd : directiveRealName d with
        | some x => exact mapGet_mapSet_other n k x (fun hc => h hc.symm) m
        | none => rfl
      simp only [if_neg h, hpd]

theorem mapGet_processValue (k : String) (v : EnumValue) (m : List (String × String)) :
    mapGet k (processValue m v) =
      if v.name = k then orO (lastDirectiveRealName (v.directives.getD [])) (mapGet k m)
      else mapGet k m :=
  mapGet_foldl_processDirective v.name k _ m

theorem mapGet_foldl_processValue_untouched (k : String) (vs : List EnumValue)
    (m : List (String × String)) (h : ∀ v ∈ vs, v.name ≠ k) :
    mapGet k (vs.foldl processValue m) = mapGet k m := by
  induction vs generalizing m with
  | nil => rfl
  | cons v vs ih =>
    simp only [List.foldl_cons]
    rw [ih _ (fun w hw => h w (List.mem_cons_of_mem v hw)), mapGet_processValue,
        if_neg (h v (List.mem_cons_self v vs))]

theorem mapGet_foldl_processValue_isSome (k : String) (vs : List EnumValue)
    (m : List (String × String)) :
    (mapGet k (vs.foldl processValue m)).isSome = true ↔
      (∃ v ∈ vs, v.name = k ∧ (lastDirectiveRealName (v.directives.getD [])).isSome = true)
      ∨ (mapGet k m).isSome = true := by
  induction vs generalizing m with
  | nil => simp
  | cons v vs ih =>
    simp only [List.foldl_cons]
    rw [ih]
    by_cases hv : v.name = k
    · simp only [mapGet_processValue, if_pos hv, orO_isSome, Bool.or_eq_true, List.mem_cons]
      constructor
      · rintro (⟨w, hw, hwk, hws⟩ | (hl | hg))
        · exact Or.inl ⟨w, Or.inr hw, hwk, hws⟩
        · exact Or.inl ⟨v, Or.inl rfl, hv, hl⟩
        · exact Or.inr hg
      · rintro (⟨w, (rfl | hw), hwk, hws⟩ | hg)
        · exact Or.inr (Or.inl hws)
        · exact Or.inl ⟨w, hw, hwk, hws⟩
        · exact Or.inr (Or.inr hg)
    · simp only [mapGet_processValue, if_neg hv, List.mem_cons]
      constructor
      · rintro (⟨w, hw, hwk, hws⟩ | hg)
        · exact Or.inl ⟨w, Or.inr hw, hwk, hws⟩
        · exact Or.inr hg
      · rintro (⟨w, (rfl | hw), hwk, hws⟩ | hg)
        · exact absurd hwk hv
        · exact Or.inl ⟨w, hw, hwk, hws⟩
        · exact Or.inr hg

theorem lastDirectiveRealName_isSome (ds : List Directive) :
    (lastDirectiveRealName ds).isSome = true ↔
      ∃ d ∈ ds, (directiveRealName d).isSome = true := by
  induction ds with
  | nil => simp [lastDirectiveRealName]
  | cons d ds ih =>
    simp only [lastDirectiveRealName, orO_isSome, Bool.or_eq_true, List.mem_cons, ih]
    constructor
    · rintro (⟨w, hw, hws⟩ | hd)
      · exact ⟨w, Or.inr hw, hws⟩
      · exact ⟨d, Or.inl rfl, hd⟩
    · rintro ⟨w, (rfl | hw), hws⟩
      · exact Or.inr hws
      · exact Or.inl ⟨w, hw, hws⟩

/-- An enum value carrying the join__graph directive twice, both times with
a valid string name argument: first "first", then "second". -/
def overwriteDirectives : List Directive :=
  [⟨"join__graph", some [⟨"name", "StringValue", "first"⟩]⟩,
   ⟨"join__graph", some [⟨"name", "StringValue", "second"⟩]⟩]

/-- The enum value A annotated with overwriteDirectives. -/
def overwriteValue : EnumValue := ⟨"A", some overwriteDirectives⟩

/-- A supergraph document whose join__Graph enum has the value A with two
valid join__graph directives. -/
def overwriteDoc : Document :=
  ⟨[Definition.enumDef "join__Graph" (some [overwriteValue])]⟩

/-- C1 counterexample: on overwriteDoc the recorded entry for A is the
value of the SECOND (last) valid directive occurrence, not the first, so
the first-match-wins policy stated by the claim does not hold. -/
theorem subgraphNameIdMap_not_first_match :
    mapGet "A" (subgraphNameIdMap overwriteDoc) = some "second" ∧
      mapGet "A" (subgraphNameIdMap overwriteDoc) ≠ some "first" := by
  refine ⟨rfl, ?_⟩
  decide

/-- C1 (amended): when an enumeration value of the first join__Graph enum
carries the join__graph directive several times, possibly together with
malformed occurrences, the NameMap entry recorded for that identifier is
the value of the LAST directive occurrence whose name argument is a
string literal: earlier valid occurrences are overwritten and malformed
occurrences are silently skipped, so each identifier still maps to at
most one real name. -/
theorem subgraphNameIdMap_last_match (doc : Document) (en : String)
    (vs : List EnumValue) (v : EnumValue)
    (hfind : doc.definitions.find? isJoinGraphEnum =
      some (Definition.enumDef en (some vs)))
    (hnodup : (vs.map EnumValue.name).Nodup) (hv : v ∈ vs) :
    mapGet v.name (subgraphNameIdMap doc) =
      lastDirectiveRealName (v.directives.getD []) := by
  unfold subgraphNameIdMap
  rw [hfind]
  simp only [Option.getD_some]
  obtain ⟨l1, l2, rfl⟩ := List.append_of_mem hv
  have hmap := hnodup
  rw [List.map_append, List.map_cons] at hmap
  obtain ⟨hn1, hn2, hdisj⟩ := List.nodup_append.mp hmap
  have hnotmem : v.name ∉ l2.map EnumValue.name := (List.nodup_cons.mp hn2).1
  have h2 : ∀ w ∈ l2, w.name ≠ v.name :=
    fun w hw hc => hnotmem (hc ▸ List.mem_map_of_mem EnumValue.name hw)
  have h1 : ∀ w ∈ l1, w.name ≠ v.name :=
    fun w hw hc =>
      hdisj (hc ▸ List.mem_map_of_mem EnumValue.name hw)
        (List.mem_cons_self v.name (l2.map EnumValue.name))
  rw [List.foldl_append, List.foldl_cons,
      mapGet_foldl_processValue_untouched _ _ _ h2, mapGet_processValue, if_pos rfl,
      mapGet_foldl_processValue_untouched _ _ _ h1]
  rw [show mapGet v.name ([] : List (String × String)) = none from rfl, orO_none_right]

/-- Witness for the amended C1 theorem at the concrete overwriteDoc. -/
theorem subgraphNameIdMap_last_match_witness :
    mapGet "A" (subgraphNameIdMap overwriteDoc) =
      lastDirectiveRealName overwriteDirectives :=
  subgraphNameIdMap_last_match overwriteDoc "join__Graph" [overwriteValue]
    overwriteValue rfl (by decide) (by decide)

theorem subgraphNameIdMap_eq_none_case (doc : Document)
    (h : doc.definitions.find? isJoinGraphEnum = none) : subgraphNameIdMap doc = [] := by
  unfold subgraphNameIdMap
  rw [h]

theorem subgraphNameIdMap_eq_enum_case (doc : Document) (en : String)
    (values : Option (List EnumValue))
    (h : doc.definitions.find? isJoinGraphEnum = some (Definition.enumDef en values)) :
    subgraphNameIdMap doc = (values.getD []).foldl processValue [] := by
  unfold subgraphNameIdMap
  rw [h]

theorem find?_unique_of_countP_le_one {α : Type} (p : α → Bool) (l : List α) (a a' : α)
    (hcount : l.countP p ≤ 1) (hfind : l.find? p = some a) (hmem : a' ∈ l)
    (hp : p a' = true) : a' = a := by
  induction l with
  | nil => cases hfind
  | cons b t ih =>
    by_cases hb : p b = true
    · rw [List.find?_cons_of_pos _ hb] at hfind
      injection hfind with hba
      rcases List.mem_cons.mp hmem with rfl | hmem'
      · exact hba
      · exfalso
        have hcc : List.countP p (b :: t) = List.countP p t + 1 :=
          List.countP_cons_of_pos p t hb
        have ht : List.countP p t = 0 := by omega
        exact (List.countP_eq_zero.mp ht a' hmem') hp
    · rw [List.find?_cons_of_neg _ hb] at hfind
      have hcc := List.countP_cons_of_neg p t hb
      rcases List.mem_cons.mp hmem with rfl | hmem'
      · exact absurd hp hb
      · exact ih (by omega) hfind hmem'

/-- The property the claim C4 states of the document itself: some
top-level enum definition named join__Graph has a value named ident that
carries a join__graph directive whose name argument is a string literal. -/
def docHasJoinGraphEntry (doc : Document) (ident : String) : Prop :=
  ∃ d ∈ doc.definitions, ∃ en vs, d = Definition.enumDef en vs ∧ en = "join__Graph" ∧
    ∃ v ∈ vs.getD [], v.name = ident ∧
      ∃ dir ∈ v.directives.getD [], (directiveRealName dir).isSome = true

/-- The AST of the SDL fixture
enum join__Graph with A at join__graph(name: "svcA") and B at
join__graph(name: "svcB"). -/
def fixtureDoc : Document :=
  ⟨[Definition.enumDef "join__Graph" (some
      [⟨"A", some [⟨"join__graph", some [⟨"name", "StringValue", "svcA"⟩]⟩]⟩,
       ⟨"B", some [⟨"join__graph", some [⟨"name", "StringValue", "svcB"⟩]⟩]⟩])]⟩

/-- C4: assuming the GraphQL well-formedness condition that at most one
top-level definition is a join__Graph enum, the NameMap has an entry for
an identifier iff the document declares that identifier with a valid
join__graph directive; absence of the enum yields the empty map, and the
two-subgraph fixture yields exactly the pairs (A, svcA) and (B, svcB). -/
theorem subgraphNameIdMap_membership (doc : Document) (ident : String)
    (huniq : doc.definitions.countP isJoinGraphEnum ≤ 1) :
    ((mapGet ident (subgraphNameIdMap doc)).isSome = true ↔ docHasJoinGraphEntry doc ident)
    ∧ ((∀ d ∈ doc.definitions, isJoinGraphEnum d = false) → subgraphNameIdMap doc = [])
    ∧ subgraphNameIdMap fixtureDoc = [("A", "svcA"), ("B", "svcB")] := by
  refine ⟨?_, ?_, by decide⟩
  · cases hfind : doc.definitions.find? isJoinGraphEnum with
    | none =>
      rw [subgraphNameIdMap_eq_none_case doc hfind]
      constructor
      · intro h
        simp [mapGet] at h
      · rintro ⟨d, hd, en, vs, rfl, hen, -⟩
        have hne := List.find?_eq_none.mp hfind _ hd
        exact absurd (by simp [isJoinGraphEnum, hen]) hne
    | some d =>
      have hpd := List.find?_some hfind
      cases d with
      | otherDef => simp [isJoinGraphEnum] at hpd
      | enumDef en values =>
        have hen : en = "join__Graph" := by
          simpa [isJoinGraphEnum] using hpd
        rw [subgraphNameIdMap_eq_enum_case doc en values hfind,
            mapGet_foldl_processValue_isSome]
        constructor
        · rintro (⟨v, hv, hvk, hvsome⟩ | hg)
          · obtain ⟨dir, hdir, hds⟩ := (lastDirectiveRealName_isSome _).mp hvsome
            exact ⟨Definition.enumDef en values, List.mem_of_find?_eq_some hfind,
              en, values, rfl, hen, v, hv, hvk, dir, hdir, hds⟩
          · simp [mapGet] at hg
        · rintro ⟨d', hd', en', vs', rfl, hen', v, hv, hvname, dir, hdir, hdirsome⟩
          have heq : Definition.enumDef en' vs' = Definition.enumDef en values :=
            find?_unique_of_countP_le_one isJoinGraphEnum doc.definitions _ _
              huniq hfind hd' (by simp [isJoinGraphEnum, hen'])
          injection heq with h1 h2
          subst h2
          exact Or.inl ⟨v, hv, hvname,
            (lastDirectiveRealName_isSome _).mpr ⟨dir, hdir, hdirsome⟩⟩
  · intro h
    exact subgraphNameIdMap_eq_none_case doc
      (List.find?_eq_none.mpr (fun a ha => by rw [h a ha]; exact Bool.false_ne_true))

/-- Witness for C4 at the SDL fixture document. -/
theorem subgraphNameIdMap_membership_witness :
    subgraphNameIdMap fixtureDoc = [("A", "svcA"), ("B", "svcB")] :=
  (subgraphNameIdMap_membership fixtureDoc "A" (by decide)).2.2

/-! ## Subgraph executor factory (onSubschemaConfig, index.ts lines 112-155) -/

/-- A per-subgraph static configuration record from the handler config:
the real name, an optional endpoint override, and an optional
operation-headers template (represented here by its evaluated value for
the request under consideration; template evaluation is the external
interpolation collaborator). -/
structure SubgraphConfiguration where
  name : String
  endpoint : Option String := none
  operationHeaders : Option (List (String × String)) := none
deriving DecidableEq

/-- The mutable record handed to onSubschemaConfig by the assembler: the
subgraph identifier as known to the assembler and the declared default
endpoint. -/
structure SubschemaConfig where
  name : String
  endpoint : String
deriving DecidableEq

/-- Lines 114-119: look the identifier up in subgraphNameIdMap, then find
the configuration whose name equals the real name; strict equality with
an undefined real name never matches, and a missing match falls back to
a minimal record holding only the identifier. -/
def resolveSubgraphConfiguration (subgraphConfigs : List SubgraphConfiguration)
    (nameIdMap : List (String × String)) (subgraphName : String) :
    SubgraphConfiguration :=
  let subgraphRealName := mapGet subgraphName nameIdMap
  match subgraphConfigs.find? (fun sc => some sc.name == subgraphRealName) with
  | some sc => sc
  | none => { name := subgraphName }

/-- Line 120: nonInterpolatedEndpoint = subgraphConfiguration.endpoint ||
nonInterpolatedEndpoint. JavaScript logical OR lets every falsy value
fall through, so an absent endpoint and the empty string both yield the
assembler-declared default. -/
def effectiveEndpoint (subgraphConfigs : List SubgraphConfiguration)
    (nameIdMap : List (String × String)) (cfg : SubschemaConfig) : String :=
  match (resolveSubgraphConfiguration subgraphConfigs nameIdMap cfg.name).endpoint with
  | some e => if e = "" then cfg.endpoint else e
  | none => cfg.endpoint

/-- Model of Object.assign(target, source) on string-keyed header
objects: properties of target are overwritten by same-named properties of
source, remaining source properties are appended in order. -/
def jsAssign (target source : List (String × String)) : List (String × String) :=
  target.map (fun e =>
    match mapGet e.1 source with
    | some v => (e.1, v)
    | none => e)
  ++ source.filter (fun e => (mapGet e.1 target).isNone)

/-- The headers closure of the executor options (index.ts lines 134-153):
start from an empty object, merge the evaluated subgraph-level
operation-headers template when configured, then merge the evaluated
handler-level template when configured. Arguments are the evaluated
templates (or none when not configured). -/
def headersFor (subgraphOperationHeaders : Option (List (String × String)))
    (handlerOperationHeaders : Option (List (String × String))) :
    List (String × String) :=
  let headers : List (String × String) := []
  let headers :=
    match subgraphOperationHeaders with
    | some hs => jsAssign headers hs
    | none => headers
  match handlerOperationHeaders with
  | some hs => jsAssign headers hs
  | none => headers

/-- JavaScript String.prototype.replace with a string pattern: replace
only the leftmost occurrence of the pattern; when the pattern is empty it
matches at position 0; when no occurrence exists the string is returned
unchanged. -/
def replaceFirstChars (s pat rep : List Char) : List Char :=
  match s with
  | [] => if pat.isEmpty then rep else []
  | c :: rest =>
    if pat.isPrefixOf (c :: rest) then rep ++ (c :: rest).drop pat.length
    else c :: replaceFirstChars rest pat rep

/-- String-level wrapper of replaceFirstChars. -/
def jsReplace (s pat rep : String) : String :=
  ⟨replaceFirstChars s.data pat.data rep.data⟩

/-- The fetch closure of the executor options (index.ts lines 125-133):
the outgoing URL has the literal occurrence of the static
(non-interpolated) endpoint replaced by the per-request interpolated
endpoint; the interpolated endpoint is a parameter here because template
evaluation is the external interpolation collaborator. -/
def fetchUrl (nonInterpolatedEndpoint interpolatedEndpoint url : String) : String :=
  jsReplace url nonInterpolatedEndpoint interpolatedEndpoint

/-- C2 counterexample: a configured endpoint that is present but equal to
the empty string is NOT bound into the executor; the assembler default is
used instead, so the nullish-coalescing reading of the claim fails. -/
theorem effectiveEndpoint_not_nullish :
    (resolveSubgraphConfiguration [⟨"svc", some "", none⟩] [("A", "svc")] "A").endpoint
        = some "" ∧
      effectiveEndpoint [⟨"svc", some "", none⟩] [("A", "svc")]
          ⟨"A", "https://default/graphql"⟩ = "https://default/graphql" ∧
      effectiveEndpoint [⟨"svc", some "", none⟩] [("A", "svc")]
          ⟨"A", "https://default/graphql"⟩ ≠ "" := by
  refine ⟨rfl, rfl, ?_⟩
  decide

/-- C2 (amended): the endpoint bound into the executor follows JavaScript
logical-OR semantics: it equals the subgraph configuration endpoint
whenever that field is present AND non-empty, and falls back to the
assembler-declared default endpoint when the field is absent or the empty
string. -/
theorem effectiveEndpoint_or_semantics (subgraphConfigs : List SubgraphConfiguration)
    (nameIdMap : List (String × String)) (cfg : SubschemaConfig) :
    ((resolveSubgraphConfiguration subgraphConfigs nameIdMap cfg.name).endpoint = none →
        effectiveEndpoint subgraphConfigs nameIdMap cfg = cfg.endpoint)
    ∧ ((resolveSubgraphConfiguration subgraphConfigs nameIdMap cfg.name).endpoint = some "" →
        effectiveEndpoint subgraphConfigs nameIdMap cfg = cfg.endpoint)
    ∧ (∀ e, (resolveSubgraphConfiguration subgraphConfigs nameIdMap cfg.name).endpoint = some e →
        e ≠ "" → effectiveEndpoint subgraphConfigs nameIdMap cfg = e) := by
  refine ⟨?_, ?_, ?_⟩
  · intro h
    unfold effectiveEndpoint
    rw [h]
  · intro h
    unfold effectiveEndpoint
    rw [h]
    simp
  · intro e h hne
    unfold effectiveEndpoint
    rw [h]
    simp [hne]

/-- Witness for the amended C2 theorem: a present non-empty override is
bound into the executor. -/
theorem effectiveEndpoint_or_semantics_witness :
    effectiveEndpoint [⟨"svc", some "https://override/graphql", none⟩] [("A", "svc")]
      ⟨"A", "https://default/graphql"⟩ = "https://override/graphql" :=
  (effectiveEndpoint_or_semantics [⟨"svc", some "https://override/graphql", none⟩]
      [("A", "svc")] ⟨"A", "https://default/graphql"⟩).2.2
    "https://override/graphql" rfl (by decide)

theorem mapGet_map_assignTarget (k : String) (source target : List (String × String)) :
    mapGet k (target.map (fun e =>
      match mapGet e.1 source with
      | some v => (e.1, v)
      | none => e)) =
      match mapGet k target with
      | some v => orO (mapGet k source) (some v)
      | none => none := by
  induction target with
  | nil => rfl
  | cons e es ih =>
    by_cases h : e.1 = k
    · subst h
      cases hs : mapGet e.1 source with
      | some v => simp [mapGet, hs, orO]
      | none => simp [mapGet, hs, orO]
    · cases hs : mapGet e.1 source with
      | some v => simp [mapGet, hs, h, ih]
      | none => simp [mapGet, hs, h, ih]

theorem mapGet_filter_notInTarget (k : String) (source target : List (String × String))
    (h : mapGet k target = none) :
    mapGet k (source.filter (fun e => (mapGet e.1 target).isNone)) = mapGet k source := by
  induction source with
  | nil => rfl
  | cons e es ih =>
    by_cases hek : e.1 = k
    · have hkeep : (mapGet e.1 target).isNone = true := by rw [hek, h]; rfl
      simp [List.filter_cons, hkeep, mapGet, hek, h, ih]
    · cases hp : (mapGet e.1 target).isNone with
      | true => simp [List.filter_cons, hp, mapGet, hek, ih]
      | false => simp [List.filter_cons, hp, mapGet, hek, ih]

theorem mapGet_jsAssign (k : String) (target source : List (String × String)) :
    mapGet k (jsAssign target source) = orO (mapGet k source) (mapGet k target) := by
  unfold jsAssign
  rw [mapGet_append, mapGet_map_assignTarget]
  cases ht : mapGet k target with
  | some v =>
    cases hs : mapGet k source with
    | some x => rfl
    | none => rfl
  | none =>
    rw [mapGet_filter_notInTarget k source target ht]
    cases hs : mapGet k source with
    | some x => rfl
    | none => rfl

/-- C3: when both a subgraph-level and a handler-level operation-headers
template are configured, the merged header object contains every key from
either evaluated template, and on key collisions the handler-level value
wins because the subgraph-level headers are merged first and the
handler-level headers last; on the spec example the merge of A=1, B=2
with B=3, C=4 is exactly A=1, B=3, C=4. -/
theorem headersFor_merge (subH hH : List (String × String))
    (_hs : (subH.map Prod.fst).Nodup) (_hh : (hH.map Prod.fst).Nodup) :
    (∀ k, ((mapGet k subH).isSome = true ∨ (mapGet k hH).isSome = true) →
        (mapGet k (headersFor (some subH) (some hH))).isSome = true)
    ∧ (∀ k v1 v2, mapGet k subH = some v1 → mapGet k hH = some v2 →
        mapGet k (headersFor (some subH) (some hH)) = some v2)
    ∧ headersFor (some [("A", "1"), ("B", "2")]) (some [("B", "3"), ("C", "4")]) =
        [("A", "1"), ("B", "3"), ("C", "4")] := by
  have hchar : ∀ k, mapGet k (headersFor (some subH) (some hH)) =
      orO (mapGet k hH) (mapGet k subH) := by
    intro k
    show mapGet k (jsAssign (jsAssign [] subH) hH) = _
    rw [mapGet_jsAssign, mapGet_jsAssign,
        show mapGet k ([] : List (String × String)) = none from rfl, orO_none_right]
  refine ⟨?_, ?_, by decide⟩
  · intro k hk
    rw [hchar k, orO_isSome, Bool.or_eq_true]
    exact hk.symm
  · intro k v1 v2 h1 h2
    rw [hchar k, h2]
    rfl

/-- Witness for C3 at the spec example header maps. -/
theorem headersFor_merge_witness :
    headersFor (some [("A", "1"), ("B", "2")]) (some [("B", "3"), ("C", "4")]) =
      [("A", "1"), ("B", "3"), ("C", "4")] :=
  (headersFor_merge [("A", "1"), ("B", "2")] [("B", "3"), ("C", "4")]
    (by decide) (by decide)).2.2

theorem isPrefixOf_append_self (l t : List Char) : l.isPrefixOf (l ++ t) = true := by
  induction l with
  | nil => simp [List.isPrefixOf]
  | cons a as ih => simp [List.isPrefixOf, ih]

theorem replaceFirstChars_append (pat suffix rep : List Char) :
    replaceFirstChars (pat ++ suffix) pat rep = rep ++ suffix := by
  cases pat with
  | nil =>
    cases suffix with
    | nil => simp [replaceFirstChars]
    | cons c cs => simp [replaceFirstChars, List.isPrefixOf]
  | cons p ps =>
    have hp : (p :: ps).isPrefixOf (p :: (ps ++ suffix)) = true := by
      rw [← List.cons_append]
      exact isPrefixOf_append_self (p :: ps) suffix
    rw [List.cons_append]
    unfold replaceFirstChars
    rw [if_pos hp, List.length_cons, List.drop_succ_cons, List.drop_left]

theorem jsReplace_append (s t r : String) : jsReplace (s ++ t) s r = r ++ t := by
  obtain ⟨sd⟩ := s
  obtain ⟨td⟩ := t
  obtain ⟨rd⟩ := r
  exact congrArg String.mk (replaceFirstChars_append sd td rd)

/-- C5: per-request URL resolution substitutes the literal occurrence of
the static (non-interpolated) endpoint inside the outgoing URL with the
interpolated endpoint, preserving any path or query suffix appended by
upstream logic; in particular a static endpoint of the form given in the
spec example rewrites as required. -/
theorem fetchUrl_replaces_endpoint (staticEndpoint interpolated suffix : String) :
    fetchUrl staticEndpoint interpolated (staticEndpoint ++ suffix) = interpolated ++ suffix
    ∧ fetchUrl "https://svc/graphql" "https://svc-prod/graphql" "https://svc/graphql?op=X"
        = "https://svc-prod/graphql?op=X" :=
  ⟨jsReplace_append staticEndpoint suffix interpolated, rfl⟩

/-- C9: the substitution replaces only the FIRST literal occurrence of
the static endpoint: an occurrence repeated later in the URL, for example
inside a query parameter, survives unchanged. -/
theorem fetchUrl_replaces_only_first (staticEndpoint interpolated mid rest : String) :
    fetchUrl staticEndpoint interpolated
        (staticEndpoint ++ (mid ++ (staticEndpoint ++ rest)))
      = interpolated ++ (mid ++ (staticEndpoint ++ rest))
    ∧ fetchUrl "https://svc/graphql" "https://svc-prod/graphql"
        "https://svc/graphql?u=https://svc/graphql"
      = "https://svc-prod/graphql?u=https://svc/graphql" :=
  ⟨jsReplace_append staticEndpoint (mid ++ (staticEndpoint ++ rest)) interpolated, rfl⟩

/-! ## Supergraph loading (getSupergraphSdl and handleSupergraphResponse) -/

/-- Runtime shape of the value produced by the retrieval collaborators:
a raw SDL string, a non-null object whose string-valued fields include an
optional kind tag, the JavaScript null, or undefined. -/
inductive Payload where
  | str (s : String)
  | obj (fields : List (String × String))
  | nullv
  | undef
deriving DecidableEq

/-- The optional chaining sdlOrDocumentNode?.kind: property access on an
object, undefined on null or undefined. -/
def payloadKind : Payload → Option String
  | .obj fields => mapGet "kind" fields
  | _ => none

/-- Model of the JSON.stringify rendering interpolated into the type
error message: null renders as null, undefined as undefined (the template
literal turns the undefined result of JSON.stringify into that word), and
an object as its key-value listing. -/
def jsonStringify : Payload → String
  | .str s => "\"" ++ s ++ "\""
  | .obj fields =>
      "\x7b" ++ String.intercalate ", "
        (fields.map (fun e => "\"" ++ e.1 ++ "\": \"" ++ e.2 ++ "\"")) ++ "\x7d"
  | .nullv => "null"
  | .undef => "undefined"

/-- The message thrown when the retrieved payload is not a string and not
a well-formed document node (index.ts lines 178-180). -/
def supergraphErrMsg (interpolatedSource rendering : String) : String :=
  "Supergraph source must be a valid GraphQL SDL string or a parsed DocumentNode, but got an invalid result from "
    ++ (interpolatedSource ++ (" instead.\n Got result: " ++ rendering))

/-- The message thrown when the retrieved payload is a string that fails
SDL parsing (index.ts lines 172-174). -/
def supergraphParseErrMsg (interpolatedSource payload emsg : String) : String :=
  supergraphErrMsg interpolatedSource (payload ++ ("\n Got error: " ++ emsg))

/-- handleSupergraphResponse (index.ts lines 164-183): a string payload
is parsed as SDL (the parser is the external collaborator parseFn) and a
parse failure is wrapped in the descriptive error; a non-string payload
is returned as is when its kind is Document and otherwise rejected with
the descriptive type error. -/
def handleSupergraphResponse (parseFn : String → Except String Payload)
    (sdlOrDocumentNode : Payload) (interpolatedSource : String) :
    Except String Payload :=
  match sdlOrDocumentNode with
  | .str s =>
    match parseFn s with
    | .ok d => .ok d
    | .error emsg => .error (supergraphParseErrMsg interpolatedSource s emsg)
  | p =>
    if payloadKind p = some "Document" then .ok p
    else .error (supergraphErrMsg interpolatedSource (jsonStringify p))

/-- The substring relation used to state what an error message surfaces. -/
def containsSubstr (sub s : String) : Prop := ∃ a b : String, s = a ++ (sub ++ b)

theorem strAppend_assoc (a b c : String) : a ++ b ++ c = a ++ (b ++ c) := by
  obtain ⟨x⟩ := a
  obtain ⟨y⟩ := b
  obtain ⟨z⟩ := c
  exact congrArg String.mk (List.append_assoc x y z)

theorem strAppend_empty (a : String) : a ++ "" = a := by
  obtain ⟨x⟩ := a
  exact congrArg String.mk (List.append_nil x)

theorem containsSubstr_self (sub : String) : containsSubstr sub sub :=
  ⟨"", "", by rw [strAppend_empty]; obtain ⟨x⟩ := sub; rfl⟩

theorem containsSubstr_append_right (sub s t : String) :
    containsSubstr sub s → containsSubstr sub (t ++ s)
  | ⟨a, b, h⟩ => ⟨t ++ a, b, by rw [h, strAppend_assoc]⟩

theorem containsSubstr_append_left (sub s t : String) :
    containsSubstr sub s → containsSubstr sub (s ++ t)
  | ⟨a, b, h⟩ => ⟨a, b ++ t, by rw [h, strAppend_assoc, strAppend_assoc]⟩

theorem containsSubstr_mid (a sub b : String) : containsSubstr sub (a ++ (sub ++ b)) :=
  ⟨a, b, rfl⟩

theorem containsSubstr_supergraphErrMsg_source (loc rendering : String) :
    containsSubstr loc (supergraphErrMsg loc rendering) :=
  containsSubstr_mid _ loc _

theorem containsSubstr_supergraphErrMsg_rendering (loc rendering : String) :
    containsSubstr rendering (supergraphErrMsg loc rendering) :=
  containsSubstr_append_right _ _ _ (containsSubstr_append_right _ _ _
    (containsSubstr_append_right _ _ _ (containsSubstr_self rendering)))

/-- C6: a retrieved payload that is neither a string nor an object whose
kind is Document makes loading fail with the labelled type error whose
message contains the resolved locator and a rendering of the invalid
payload; a string payload that fails SDL parsing makes loading fail with
an error containing the locator, the raw payload and the parser message. -/
theorem handleSupergraphResponse_descriptive_errors :
    (∀ (parseFn : String → Except String Payload) (p : Payload) (loc : String),
        (∀ s, p ≠ Payload.str s) → payloadKind p ≠ some "Document" →
        handleSupergraphResponse parseFn p loc =
            Except.error (supergraphErrMsg loc (jsonStringify p))
          ∧ containsSubstr loc (supergraphErrMsg loc (jsonStringify p))
          ∧ containsSubstr (jsonStringify p) (supergraphErrMsg loc (jsonStringify p)))
    ∧ (∀ (parseFn : String → Except String Payload) (s loc emsg : String),
        parseFn s = Except.error emsg →
        handleSupergraphResponse parseFn (Payload.str s) loc =
            Except.error (supergraphParseErrMsg loc s emsg)
          ∧ containsSubstr loc (supergraphParseErrMsg loc s emsg)
          ∧ containsSubstr s (supergraphParseErrMsg loc s emsg)
          ∧ containsSubstr emsg (supergraphParseErrMsg loc s emsg)) := by
  constructor
  · intro parseFn p loc hstr hkind
    refine ⟨?_, containsSubstr_supergraphErrMsg_source loc _,
      containsSubstr_supergraphErrMsg_rendering loc _⟩
    cases p with
    | str s => exact absurd rfl (hstr s)
    | obj fields =>
      have hstep : handleSupergraphResponse parseFn (Payload.obj fields) loc =
          if payloadKind (Payload.obj fields) = some "Document" then
            Except.ok (Payload.obj fields)
          else Except.error (supergraphErrMsg loc (jsonStringify (Payload.obj fields))) := rfl
      rw [hstep, if_neg hkind]
    | nullv =>
      have hstep : handleSupergraphResponse parseFn Payload.nullv loc =
          if payloadKind Payload.nullv = some "Document" then Except.ok Payload.nullv
          else Except.error (supergraphErrMsg loc (jsonStringify Payload.nullv)) := rfl
      rw [hstep, if_neg hkind]
    | undef =>
      have hstep : handleSupergraphResponse parseFn Payload.undef loc =
          if payloadKind Payload.undef = some "Document" then Except.ok Payload.undef
          else Except.error (supergraphErrMsg loc (jsonStringify Payload.undef)) := rfl
      rw [hstep, if_neg hkind]
  · intro parseFn s loc emsg hparse
    refine ⟨?_, containsSubstr_supergraphErrMsg_source loc _, ?_, ?_⟩
    · have hstep : handleSupergraphResponse parseFn (Payload.str s) loc =
          match parseFn s with
          | .ok d => Except.ok d
          | .error emsg => Except.error (supergraphParseErrMsg loc s emsg) := rfl
      rw [hstep, hparse]
    · exact containsSubstr_append_right _ _ _ (containsSubstr_append_right _ _ _
        (containsSubstr_append_right _ _ _ (containsSubstr_append_left _ _ _
          (containsSubstr_self s))))
    · exact containsSubstr_append_right _ _ _ (containsSubstr_append_right _ _ _
        (containsSubstr_append_right _ _ _ (containsSubstr_append_right _ _ _
          (containsSubstr_append_right _ _ _ (containsSubstr_self emsg)))))

/-- Witness for C6: a concrete object payload without the Document kind
and a concrete unparsable string payload. -/
theorem handleSupergraphResponse_descriptive_errors_witness :
    (handleSupergraphResponse (fun _ => Except.error "boom")
        (Payload.obj [("kind", "NotDocument")]) "http://example/supergraph" =
      Except.error (supergraphErrMsg "http://example/supergraph"
        (jsonStringify (Payload.obj [("kind", "NotDocument")]))))
    ∧ handleSupergraphResponse (fun _ => Except.error "boom")
        (Payload.str "not sdl") "http://example/supergraph" =
      Except.error (supergraphParseErrMsg "http://example/supergraph" "not sdl" "boom") :=
  ⟨(handleSupergraphResponse_descriptive_errors.1 (fun _ => Except.error "boom")
      (Payload.obj [("kind", "NotDocument")]) "http://example/supergraph"
      (fun s h => Payload.noConfusion h) (by decide)).1,
   (handleSupergraphResponse_descriptive_errors.2 (fun _ => Except.error "boom")
      "not sdl" "http://example/supergraph" "boom" rfl).1⟩

/-- C10: a null or undefined payload does not crash the kind check; the
optional chaining makes it fall into the descriptive type error naming
the locator, with null rendered as null and undefined as undefined. -/
theorem handleSupergraphResponse_nullish_total
    (parseFn : String → Except String Payload) (loc : String) :
    handleSupergraphResponse parseFn Payload.nullv loc =
        Except.error (supergraphErrMsg loc "null")
    ∧ handleSupergraphResponse parseFn Payload.undef loc =
        Except.error (supergraphErrMsg loc "undefined")
    ∧ containsSubstr loc (supergraphErrMsg loc "null")
    ∧ containsSubstr loc (supergraphErrMsg loc "undefined") :=
  ⟨rfl, rfl, containsSubstr_supergraphErrMsg_source loc "null",
    containsSubstr_supergraphErrMsg_source loc "undefined"⟩

/-- Observable state of one handler instance: the store cache entry under
the fixed logical key nonExecutableSchema, and invocation counters for
the readFile and readUrl collaborators. -/
structure LoaderState where
  cache : Option Payload
  readCount : Nat
  fetchCount : Nat
deriving DecidableEq

/-- getSupergraphSdl (index.ts lines 49-84). Modelled from the spec: the
store proxy getWithSet contract (the StoreProxy implementation lives in
the store package, outside the embedded source): on a cache hit return
the cached value without invoking the producer; on a miss run the
producer once and persist a successful result. Everything else follows
the embedded source: a URL source bypasses the cache entirely and calls
readUrl each time; a local source consults the cache and calls readFile
only on a miss; a retrieval failure is wrapped in the Failed-to-load
message naming the interpolated source; the payload is normalised by
handleSupergraphResponse. The retrieval outcome is the parameter retrieve
(the underlying resource is unchanged between calls), interpolation of
the source locator is external and arrives as interpolatedSource. -/
def getSupergraphSdl (isUrlSource : Bool) (retrieve : Except String Payload)
    (parseFn : String → Except String Payload) (interpolatedSource : String)
    (st : LoaderState) : Except String Payload × LoaderState :=
  if isUrlSource then
    let st1 : LoaderState := { st with fetchCount := st.fetchCount + 1 }
    match retrieve with
    | .error e =>
      (.error ("Failed to load supergraph SDL from " ++ (interpolatedSource ++ (":\n " ++ e))),
        st1)
    | .ok p => (handleSupergraphResponse parseFn p interpolatedSource, st1)
  else
    match st.cache with
    | some d => (.ok d, st)
    | none =>
      let st1 : LoaderState := { st with readCount := st.readCount + 1 }
      match retrieve with
      | .error e =>
        (.error ("Failed to load supergraph SDL from " ++ (interpolatedSource ++ (":\n " ++ e))),
          st1)
      | .ok p =>
        match handleSupergraphResponse parseFn p interpolatedSource with
        | .ok d => (.ok d, { st1 with cache := some d })
        | .error e => (.error e, st1)

/-- C7: for a file-based source, starting from a fresh handler instance,
a first successful load returns the parsed document, populates the cache
under the fixed key and invokes the read collaborator exactly once; a
second load with the unchanged resource returns the same document from
the cache and does not read again, so across both loads the read
collaborator ran at most once. -/
theorem getSupergraphSdl_file_cached (retrieve : Except String Payload)
    (parseFn : String → Except String Payload) (loc : String) (p d : Payload)
    (hret : retrieve = Except.ok p)
    (hok : handleSupergraphResponse parseFn p loc = Except.ok d) :
    (getSupergraphSdl false retrieve parseFn loc ⟨none, 0, 0⟩).1 = Except.ok d
    ∧ (getSupergraphSdl false retrieve parseFn loc ⟨none, 0, 0⟩).2.cache = some d
    ∧ (getSupergraphSdl false retrieve parseFn loc ⟨none, 0, 0⟩).2.readCount = 1
    ∧ (getSupergraphSdl false retrieve parseFn loc
        (getSupergraphSdl false retrieve parseFn loc ⟨none, 0, 0⟩).2).1 = Except.ok d
    ∧ (getSupergraphSdl false retrieve parseFn loc
        (getSupergraphSdl false retrieve parseFn loc ⟨none, 0, 0⟩).2).2.readCount = 1 := by
  have h1 : getSupergraphSdl false retrieve parseFn loc ⟨none, 0, 0⟩ =
      (Except.ok d, ⟨some d, 1, 0⟩) := by
    unfold getSupergraphSdl
    rw [hret]
    simp only [Bool.false_eq_true, if_false, hok]
  have h2 : getSupergraphSdl false retrieve parseFn loc ⟨some d, 1, 0⟩ =
      (Except.ok d, ⟨some d, 1, 0⟩) := by
    unfold getSupergraphSdl
    simp only [Bool.false_eq_true, if_false]
  rw [h1, h2]
  exact ⟨rfl, rfl, rfl, rfl, rfl⟩

/-- Witness for C7 with a concrete already-structured document payload. -/
theorem getSupergraphSdl_file_cached_witness :
    (getSupergraphSdl false (Except.ok (Payload.obj [("kind", "Document")]))
        (fun _ => Except.error "unused") "supergraph.graphql" ⟨none, 0, 0⟩).1 =
      Except.ok (Payload.obj [("kind", "Document")])
    ∧ (getSupergraphSdl false (Except.ok (Payload.obj [("kind", "Document")]))
        (fun _ => Except.error "unused") "supergraph.graphql" ⟨none, 0, 0⟩).2.readCount = 1 :=
  ⟨(getSupergraphSdl_file_cached (Except.ok (Payload.obj [("kind", "Document")]))
      (fun _ => Except.error "unused") "supergraph.graphql"
      (Payload.obj [("kind", "Document")]) (Payload.obj [("kind", "Document")])
      rfl rfl).1,
   (getSupergraphSdl_file_cached (Except.ok (Payload.obj [("kind", "Document")]))
      (fun _ => Except.error "unused") "supergraph.graphql"
      (Payload.obj [("kind", "Document")]) (Payload.obj [("kind", "Document")])
      rfl rfl).2.2.1⟩

/-- C8: for a URL source every load invokes the fetch collaborator
exactly once and bypasses the cache entirely: the cache is neither
written (it is unchanged, as is the read counter) nor read (the returned
value is the same as from a handler whose cache is empty). -/
theorem getSupergraphSdl_url_no_cache (retrieve : Except String Payload)
    (parseFn : String → Except String Payload) (loc : String) (st : LoaderState) :
    (getSupergraphSdl true retrieve parseFn loc st).2.fetchCount = st.fetchCount + 1
    ∧ (getSupergraphSdl true retrieve parseFn loc st).2.cache = st.cache
    ∧ (getSupergraphSdl true retrieve parseFn loc st).2.readCount = st.readCount
    ∧ (getSupergraphSdl true retrieve parseFn loc st).1 =
        (getSupergraphSdl true retrieve parseFn loc ⟨none, 0, 0⟩).1 := by
  unfold getSupergraphSdl
  cases retrieve with
  | ok p => exact ⟨rfl, rfl, rfl, rfl⟩
  | error e => exact ⟨rfl, rfl, rfl, rfl⟩
